import Mathlib

/-!
Verification development for the process-selection core of the SPOS kernel
(src/V3/SPOS/os_scheduling_strategies.c).

The C file is shallowly embedded: the process table is a function from slot
indices to process records, the process-wide mutable SchedulingInformation is
passed and returned explicitly, and the bounded do-while scan loops are fuel
based recursions (the fuel is a strict upper bound on the loop body count; a
separate theorem shows the loops always exit through their own conditions).
The uninitialized local variable counter of os_Scheduler_RunToCompletion and
the rand() value of os_Scheduler_Random are modelled as explicit parameters.
-/

inductive ProcessState where
  | UNUSED
  | READY
  | RUNNING
  | BLOCKED
deriving DecidableEq

structure Process where
  state : ProcessState
  priority : Nat
deriving DecidableEq

abbrev ProcessID := Nat

abbrev ProcessTable := Nat → Process

/-- Modelled from the spec: defines.h is not under src/, so the constant
MAX_NUMBER_OF_PROCESSES is missing. The spec describes a table of 8 slots
(slot 0 the idle sentinel, slots 1..7 real), which matches the literal
bounds 8 and 6 in the source loops. -/
def MAX_NUMBER_OF_PROCESSES : Nat := 8

/-- The scheduling strategies, from os_scheduling_strategies.h as used by the
source and enumerated by the spec. -/
inductive SchedulingStrategy where
  | OS_SS_EVEN
  | OS_SS_RANDOM
  | OS_SS_ROUND_ROBIN
  | OS_SS_RUN_TO_COMPLETION
  | OS_SS_INACTIVE_AGING
deriving DecidableEq

/-- The process-wide SchedulingInformation struct: the shared countdown
Zeitschiebe and the per-slot age accumulators. -/
structure SchedulingInformation where
  Zeitschiebe : Nat
  age : Nat → Nat

/-- The real slots 1..7, in the order every source loop visits them. -/
def realSlots : List Nat := [1, 2, 3, 4, 5, 6, 7]

/-- All slots 0..7, the index range of the age array. -/
def allSlots : List Nat := [0, 1, 2, 3, 4, 5, 6, 7]

/-- The slot advance used by the scans: if (i == MAX_NUMBER_OF_PROCESSES-1)
i = 1 else i = i+1. The same formula computes the start index from current. -/
def nextIdx (i : Nat) : Nat :=
  if i = MAX_NUMBER_OF_PROCESSES - 1 then 1 else i + 1

/-- The bounded do-while scan shared by Even, RoundRobin and RunToCompletion:
probe slot i; on READY return it; otherwise advance i, increment the uint8
counter and repeat while counter < 6; on loop exit return slot 0. The fuel
argument only bounds the recursion; with fuel at least 7 the loop always
exits through its own condition (proved below). -/
def scanFrom (t : ProcessTable) : Nat → Nat → Nat → Option Nat
  | 0, _, _ => none
  | fuel + 1, i, counter =>
    if (t i).state = ProcessState.READY then some i
    else
      if (counter + 1) % 256 < 6 then scanFrom t fuel (nextIdx i) ((counter + 1) % 256)
      else some 0

/-- os_Scheduler_Even: scan from the slot after current with counter 0. -/
def os_Scheduler_Even (processes : ProcessTable) (current : ProcessID) : ProcessID :=
  (scanFrom processes 8 (nextIdx current) 0).getD 0

/-- os_Scheduler_RoundRobin: if Zeitschiebe > 0 decrement it and return
current; otherwise scan as Even does, seed Zeitschiebe with the priority of
the found slot and return the slot, or return 0 on scan exhaustion. -/
def os_Scheduler_RoundRobin (processes : ProcessTable) (current : ProcessID)
    (info : SchedulingInformation) : ProcessID × SchedulingInformation :=
  if 0 < info.Zeitschiebe then
    (current, { info with Zeitschiebe := info.Zeitschiebe - 1 })
  else
    match scanFrom processes 8 (nextIdx current) 0 with
    | some i =>
      if i = 0 then (0, info)
      else (i, { info with Zeitschiebe := (processes i).priority })
    | none => (0, info)

/-- Modelled from the spec: os_getNumberOfReadyProcs is declared elsewhere in
the kernel and not under src/; per the spec the random strategy builds the set
of currently READY real slots, so the count is the number of READY real
slots. -/
def os_getNumberOfReadyProcs (processes : ProcessTable) : Nat :=
  (realSlots.filter (fun j => decide ((processes j).state = ProcessState.READY))).length

/-- The procIndex array built by os_Scheduler_Random: the READY real slots in
increasing order. -/
def readyProcs (processes : ProcessTable) : List Nat :=
  realSlots.filter (fun j => decide ((processes j).state = ProcessState.READY))

/-- os_Scheduler_Random with the rand() draw passed in as randVal: if no real
slot is READY return 0, otherwise return procIndex[randVal mod count]. -/
def os_Scheduler_Random (processes : ProcessTable) (current : ProcessID)
    (randVal : Nat) : ProcessID :=
  if (readyProcs processes).length = 0 then 0
  else (readyProcs processes).getD (randVal % os_getNumberOfReadyProcs processes) 0

/-- The write SchedulingInfo.age[current] = processes[current].priority done
at the start of the InactiveAging selection phase. -/
def reseedAge (processes : ProcessTable) (current : Nat) (a : Nat → Nat) : Nat → Nat :=
  fun j => if j = current then (processes current).priority else a j

/-- One step of the InactiveAging waiting loop: if current != i then
age[i] += processes[i].priority. -/
def agingStep (processes : ProcessTable) (current : Nat) (a : Nat → Nat) (i : Nat) :
    Nat → Nat :=
  if current ≠ i then (fun j => if j = i then a i + (processes i).priority else a j) else a

/-- The whole InactiveAging waiting loop over slots 1..7. -/
def agingUpdate (processes : ProcessTable) (current : Nat) (a : Nat → Nat) : Nat → Nat :=
  List.foldl (agingStep processes current) a realSlots

/-- First branch condition of the InactiveAging selection loop. -/
abbrev aiCond1 (t : ProcessTable) (a : Nat → Nat) (Max i : Nat) : Prop :=
  (t i).state = ProcessState.READY ∧ a i > a Max

/-- Second branch condition of the InactiveAging selection loop. -/
abbrev aiCond2 (t : ProcessTable) (a : Nat → Nat) (Max i : Nat) : Prop :=
  (t i).state = ProcessState.READY ∧ a i = a Max ∧ (t i).priority > (t Max).priority

/-- Third branch condition of the InactiveAging selection loop, verbatim from
the source: the second branch condition strengthened with i < Max. -/
abbrev aiCond3 (t : ProcessTable) (a : Nat → Nat) (Max i : Nat) : Prop :=
  (t i).state = ProcessState.READY ∧ a i = a Max ∧ (t i).priority > (t Max).priority ∧
    i < Max

/-- One iteration of the InactiveAging selection loop body. -/
def aiStep (t : ProcessTable) (a : Nat → Nat) (Max i : Nat) : Nat :=
  if aiCond1 t a Max i then i
  else if aiCond2 t a Max i then i
  else if aiCond3 t a Max i then i
  else Max

/-- The InactiveAging selection loop: Max starts at 0 and the loop runs over
slots 1..7. -/
def aiSelect (t : ProcessTable) (a : Nat → Nat) : Nat :=
  List.foldl (aiStep t a) 0 realSlots

/-- os_Scheduler_InactiveAging: if Zeitschiebe > 0 decrement it, age every
real slot other than current by its priority and return current; otherwise
re-seed age[current] to the priority of current and run the selection loop. -/
def os_Scheduler_InactiveAging (processes : ProcessTable) (current : ProcessID)
    (info : SchedulingInformation) : ProcessID × SchedulingInformation :=
  if 0 < info.Zeitschiebe then
    (current,
      { Zeitschiebe := info.Zeitschiebe - 1, age := agingUpdate processes current info.age })
  else
    (aiSelect processes (reseedAge processes current info.age),
      { Zeitschiebe := info.Zeitschiebe, age := reseedAge processes current info.age })

/-- os_Scheduler_RunToCompletion: return current while it is RUNNING,
otherwise scan from slot 1. The local variable counter is uninitialized in
the source, so its initial value counter0 is an explicit parameter. -/
def os_Scheduler_RunToCompletion (processes : ProcessTable) (current : ProcessID)
    (counter0 : Nat) : ProcessID :=
  if (processes current).state = ProcessState.RUNNING then current
  else (scanFrom processes 8 1 counter0).getD 0

/-- os_resetSchedulingInformation. The priority of the currently running
process slot is read through os_getProcessSlot(os_getCurrentProc()), which is
not under src/; it is passed in as currentPriority, modelled from the spec
(re-seed the time slice from the currently running slot). -/
def os_resetSchedulingInformation (strategy : SchedulingStrategy)
    (currentPriority : Nat) (info : SchedulingInformation) : SchedulingInformation :=
  if strategy = SchedulingStrategy.OS_SS_ROUND_ROBIN then
    { info with Zeitschiebe := currentPriority }
  else if strategy = SchedulingStrategy.OS_SS_INACTIVE_AGING then
    { info with age := List.foldl (fun a i => fun j => if j = i then 0 else a j) info.age allSlots }
  else info

/-- os_resetProcessSchedulingInformation: zero age[id]. -/
def os_resetProcessSchedulingInformation (id : ProcessID)
    (info : SchedulingInformation) : SchedulingInformation :=
  { info with age := fun j => if j = id then 0 else info.age j }

/-- Repeated RoundRobin calls against an unchanged table, the kernel passing
the slot returned by one call as current of the next. -/
def rrRun (processes : ProcessTable) :
    ProcessID → SchedulingInformation → Nat → ProcessID × SchedulingInformation
  | current, info, 0 => (current, info)
  | current, info, n + 1 =>
    rrRun processes (os_Scheduler_RoundRobin processes current info).1
      (os_Scheduler_RoundRobin processes current info).2 n

/-- The one real slot the six-probe scan never visits: current itself, or
slot 7 when current is 0 (both start indices coincide at 1). -/
def missedSlot (current : Nat) : Nat := if current = 0 then 7 else current

/-- The list of slots probed by a scan: n probes starting at s. -/
def probeList : Nat → Nat → List Nat
  | _, 0 => []
  | s, n + 1 => s :: probeList (nextIdx s) n

/-- Strict priority of slot i over slot j in the InactiveAging selection:
strictly greater age, or equal age and strictly greater priority. -/
abbrev beats (t : ProcessTable) (a : Nat → Nat) (i j : Nat) : Prop :=
  a i > a j ∨ (a i = a j ∧ (t i).priority > (t j).priority)

/-- Scheduling state with Zeitschiebe 0 and all ages 0. -/
def sZero : SchedulingInformation := { Zeitschiebe := 0, age := fun _ => 0 }

/-- Table in which exactly slot 7 is READY. -/
def tOnly7 : ProcessTable := fun i =>
  if i = 7 then { state := ProcessState.READY, priority := 1 }
  else { state := ProcessState.UNUSED, priority := 0 }

/-- Table in which exactly slot 2 is READY, with priority 1. -/
def tSlot2 : ProcessTable := fun i =>
  if i = 2 then { state := ProcessState.READY, priority := 1 }
  else { state := ProcessState.UNUSED, priority := 0 }

/-- Table for the InactiveAging counterexample: slots 2 and 3 READY with equal
priority 1, everything else UNUSED with priority 0. -/
def tC4 : ProcessTable := fun i =>
  if i = 2 then { state := ProcessState.READY, priority := 1 }
  else if i = 3 then { state := ProcessState.READY, priority := 1 }
  else { state := ProcessState.UNUSED, priority := 0 }

/-- Ages for the InactiveAging counterexample: the stale slot-0 entry 5
dominates the READY slots aged 1 and 2. -/
def ageC4 : Nat → Nat := fun j =>
  if j = 0 then 5 else if j = 2 then 1 else if j = 3 then 2 else 0

/-- Table for the slot-0 influence counterexample, with slot-0 priority 0. -/
def t5a : ProcessTable := fun i =>
  if i = 2 then { state := ProcessState.READY, priority := 2 }
  else { state := ProcessState.UNUSED, priority := 0 }

/-- Same table as t5a except slot 0 carries priority 5. -/
def t5b : ProcessTable := fun i =>
  if i = 0 then { state := ProcessState.UNUSED, priority := 5 }
  else if i = 2 then { state := ProcessState.READY, priority := 2 }
  else { state := ProcessState.UNUSED, priority := 0 }

/-- Table whose slot 3 is BLOCKED, for the RoundRobin slice-keeping witness. -/
def tW : ProcessTable := fun i =>
  if i = 3 then { state := ProcessState.BLOCKED, priority := 2 }
  else if i = 4 then { state := ProcessState.READY, priority := 1 }
  else { state := ProcessState.UNUSED, priority := 0 }

/-- Scheduling state with Zeitschiebe 2 and all ages 0. -/
def sTwo : SchedulingInformation := { Zeitschiebe := 2, age := fun _ => 0 }

/-- Same table as t5b except the state of slot 0 is RUNNING instead of
UNUSED: differs from t5b only in the slot-0 state field. -/
def t5c : ProcessTable := fun i =>
  if i = 0 then { state := ProcessState.RUNNING, priority := 5 }
  else if i = 2 then { state := ProcessState.READY, priority := 2 }
  else { state := ProcessState.UNUSED, priority := 0 }

/-! ## Helper lemmas -/

theorem mem_realSlots (i : Nat) : i ∈ realSlots ↔ 1 ≤ i ∧ i < 8 := by
  simp [realSlots]
  omega

/-- The scan with counter value c < 6 performs exactly 6 - c probes and
returns the first READY slot among them, or 0 when none is READY. -/
theorem scanFrom_eq_find (t : ProcessTable) :
    ∀ n s c fuel, c < 6 → n + c = 6 → n ≤ fuel →
      scanFrom t fuel s c =
        some (((probeList s n).find?
          (fun i => decide ((t i).state = ProcessState.READY))).getD 0) := by
  intro n
  induction n with
  | zero => intro s c fuel hc hn _; omega
  | succ n ih =>
    intro s c fuel hc hn hfuel
    match fuel, hfuel with
    | fuel + 1, _ =>
      by_cases h : (t s).state = ProcessState.READY
      · simp [scanFrom, h, probeList, List.find?]
      · have h256 : (c + 1) % 256 = c + 1 := Nat.mod_eq_of_lt (by omega)
        by_cases h6 : c + 1 < 6
        · have := ih (nextIdx s) (c + 1) fuel h6 (by omega) (by omega)
          simp [scanFrom, h, h256, h6, this, probeList, List.find?]
        · have hn0 : n = 0 := by omega
          subst hn0
          simp [scanFrom, h, h256, h6, probeList, List.find?]

/-- Even in terms of the six-probe list. -/
theorem even_eq_find (t : ProcessTable) (current : Nat) :
    os_Scheduler_Even t current =
      ((probeList (nextIdx current) 6).find?
        (fun i => decide ((t i).state = ProcessState.READY))).getD 0 := by
  unfold os_Scheduler_Even
  rw [scanFrom_eq_find t 6 (nextIdx current) 0 8 (by omega) (by omega) (by omega)]
  rfl

/-- For an in-range current slot, the six probed slots are exactly the real
slots other than the missed one. -/
theorem probeList_even_mem (current : Nat) (h : current < 8) (i : Nat) :
    i ∈ probeList (nextIdx current) 6 ↔ i ∈ realSlots ∧ i ≠ missedSlot current := by
  interval_cases current <;>
    simp [probeList, nextIdx, missedSlot, MAX_NUMBER_OF_PROCESSES, realSlots] <;> omega

/-- A scan started inside the real slots only ever finds a real slot (or
falls back to slot 0). -/
theorem scanFrom_le7 (t : ProcessTable) :
    ∀ fuel s c r, 1 ≤ s → s ≤ 7 → scanFrom t fuel s c = some r → r ≤ 7 := by
  intro fuel
  induction fuel with
  | zero => intro s c r _ _ h; simp [scanFrom] at h
  | succ fuel ih =>
    intro s c r hs1 hs7 h
    rw [scanFrom] at h
    by_cases hr : (t s).state = ProcessState.READY
    · simp [hr] at h; omega
    · simp only [hr, if_false, if_neg] at h
      split at h
      · exact ih (nextIdx s) _ r
          (by unfold nextIdx MAX_NUMBER_OF_PROCESSES; split <;> omega)
          (by unfold nextIdx MAX_NUMBER_OF_PROCESSES; split <;> omega) h
      · simp at h; omega

/-- With Zeitschiebe zero, RoundRobin returns the slot the Even scan
returns. -/
theorem rr_zero_fst (t : ProcessTable) (current : Nat) (info : SchedulingInformation)
    (h : info.Zeitschiebe = 0) :
    (os_Scheduler_RoundRobin t current info).1 = os_Scheduler_Even t current := by
  unfold os_Scheduler_RoundRobin os_Scheduler_Even
  rw [h]
  simp only [Nat.lt_irrefl, if_false]
  cases hscan : scanFrom t 8 (nextIdx current) 0 with
  | none => simp
  | some i =>
    by_cases hi : i = 0 <;> simp [hi]

/-- The getD of a list of small numbers is small. -/
theorem getD_le7 : ∀ (l : List Nat) (n d : Nat), (∀ x ∈ l, x ≤ 7) → d ≤ 7 →
    l.getD n d ≤ 7 := by
  intro l
  induction l with
  | nil => intro n d _ hd; simpa [List.getD] using hd
  | cons x l ih =>
    intro n d hl hd
    cases n with
    | zero => simpa using hl x (by simp)
    | succ n =>
      simp only [List.getD_cons_succ]
      exact ih n d (fun y hy => hl y (by simp [hy])) hd

/-- Every member of the READY list is a real slot index. -/
theorem readyProcs_le7 (t : ProcessTable) : ∀ x ∈ readyProcs t, x ≤ 7 := by
  intro x hx
  unfold readyProcs at hx
  have := List.mem_of_mem_filter hx
  rw [mem_realSlots] at this
  omega

/-- The selection loop only ever holds a slot index of the list or the
initial 0. -/
theorem aiFold_le7 (t : ProcessTable) (a : Nat → Nat) :
    ∀ (L : List Nat) (M : Nat), M ≤ 7 → (∀ x ∈ L, x ≤ 7) →
      List.foldl (aiStep t a) M L ≤ 7 := by
  intro L
  induction L with
  | nil => intro M hM _; simpa using hM
  | cons x L ih =>
    intro M hM hL
    simp only [List.foldl_cons]
    have hx : x ≤ 7 := hL x (by simp)
    have hstep : aiStep t a M x = x ∨ aiStep t a M x = M := by
      unfold aiStep; split
      · exact Or.inl rfl
      · split
        · exact Or.inl rfl
        · split
          · exact Or.inl rfl
          · exact Or.inr rfl
    apply ih
    · rcases hstep with h | h <;> rw [h] <;> assumption
    · exact fun y hy => hL y (by simp [hy])

/-! ## Claim theorems -/

/-- Claim C9: in the InactiveAging selection loop the third else-if branch is
unreachable: whenever the first two branch conditions are false, the third
condition is false as well (it is the second condition strengthened with
i < Max), so the step leaves Max unchanged there. -/
theorem c9_third_branch_unreachable (t : ProcessTable) (a : Nat → Nat) (Max i : Nat)
    (h1 : ¬ aiCond1 t a Max i) (h2 : ¬ aiCond2 t a Max i) :
    ¬ aiCond3 t a Max i ∧ aiStep t a Max i = Max := by
  have h3 : ¬ aiCond3 t a Max i := fun h => h2 ⟨h.1, h.2.1, h.2.2.1⟩
  exact ⟨h3, by unfold aiStep; simp [h1, h2, h3]⟩

theorem c9_witness :
    ¬ aiCond3 t5a (fun _ => 0) 0 1 ∧ aiStep t5a (fun _ => 0) 0 1 = 0 :=
  c9_third_branch_unreachable t5a (fun _ => 0) 0 1 (by decide) (by decide)

/-- Claim C10: with Zeitschiebe positive, RoundRobin decrements it and
returns current without reading any process record: two arbitrary tables give
the identical result and identical resulting state, the returned slot is
current, Zeitschiebe drops by one and the ages are untouched. -/
theorem c10_slice_ignores_table (t1 t2 : ProcessTable) (current : Nat)
    (s : SchedulingInformation) (h : 0 < s.Zeitschiebe) :
    os_Scheduler_RoundRobin t1 current s = os_Scheduler_RoundRobin t2 current s ∧
    (os_Scheduler_RoundRobin t1 current s).1 = current ∧
    (os_Scheduler_RoundRobin t1 current s).2.Zeitschiebe = s.Zeitschiebe - 1 ∧
    (os_Scheduler_RoundRobin t1 current s).2.age = s.age := by
  unfold os_Scheduler_RoundRobin
  simp [h]

theorem c10_witness :
    (tW 3).state = ProcessState.BLOCKED ∧ 0 < sTwo.Zeitschiebe ∧
    os_Scheduler_RoundRobin tW 3 sTwo = os_Scheduler_RoundRobin tOnly7 3 sTwo ∧
    (os_Scheduler_RoundRobin tW 3 sTwo).1 = 3 ∧
    (os_Scheduler_RoundRobin tW 3 sTwo).2.Zeitschiebe = 1 :=
  ⟨by decide, by decide, (c10_slice_ignores_table tW tOnly7 3 sTwo (by decide)).1,
    (c10_slice_ignores_table tW tOnly7 3 sTwo (by decide)).2.1,
    (c10_slice_ignores_table tW tOnly7 3 sTwo (by decide)).2.2.1⟩

/-- Claim C7: after resetting for InactiveAging every age entry is zero;
resetting a single slot zeroes exactly that entry regardless of its prior
value; and for every strategy other than RoundRobin and InactiveAging the
reset leaves the scheduling information entirely unchanged. -/
theorem c7_reset_contract (info : SchedulingInformation) (p : Nat)
    (s : SchedulingStrategy) (id i : Nat) :
    (i < 8 →
      (os_resetSchedulingInformation SchedulingStrategy.OS_SS_INACTIVE_AGING p info).age i = 0) ∧
    (os_resetProcessSchedulingInformation id info).age id = 0 ∧
    (s ≠ SchedulingStrategy.OS_SS_ROUND_ROBIN →
      s ≠ SchedulingStrategy.OS_SS_INACTIVE_AGING →
      os_resetSchedulingInformation s p info = info) := by
  refine ⟨?_, ?_, ?_⟩
  · intro hi
    unfold os_resetSchedulingInformation
    simp only [reduceCtorEq, if_false, if_true, reduceIte, allSlots, List.foldl]
    interval_cases i <;> simp
  · unfold os_resetProcessSchedulingInformation
    simp
  · intro h1 h2
    unfold os_resetSchedulingInformation
    simp [h1, h2]

theorem c7_witness :
    (os_resetSchedulingInformation SchedulingStrategy.OS_SS_INACTIVE_AGING 3 sTwo).age 5 = 0 ∧
    (os_resetProcessSchedulingInformation 4 sTwo).age 4 = 0 ∧
    os_resetSchedulingInformation SchedulingStrategy.OS_SS_EVEN 3 sTwo = sTwo :=
  ⟨(c7_reset_contract sTwo 3 SchedulingStrategy.OS_SS_EVEN 4 5).1 (by decide),
    (c7_reset_contract sTwo 3 SchedulingStrategy.OS_SS_EVEN 4 5).2.1,
    (c7_reset_contract sTwo 3 SchedulingStrategy.OS_SS_EVEN 4 5).2.2 (by decide) (by decide)⟩

/-- Claim C1, counterexample: slot 7 is READY, current is the in-range slot 0
and Zeitschiebe is 0, yet os_Scheduler_Even returns slot 0 — the six-probe
scan starting at slot 1 never reaches slot 7. -/
theorem c1_counterexample :
    (tOnly7 7).state = ProcessState.READY ∧ os_Scheduler_Even tOnly7 0 = 0 := by
  decide

/-- Claim C2, evaluation at the failing input: exactly slot 7 is READY among
the real slots, current is 0, and os_Scheduler_Even returns 0 instead of 7. -/
theorem c2_failing_eval :
    (∀ i ∈ realSlots, ((tOnly7 i).state = ProcessState.READY ↔ i = 7)) ∧
    os_Scheduler_Even tOnly7 0 = 0 := by
  decide

/-- Claim C3, counterexample: slot 2 (priority 1) is selected by the scan at
the first call, so the claim predicts that the call at tick T+p = T+1
performs a new scan; a scan from current 2 returns 0 here (only slot 2 is
READY and the scan skips it), but the actual second call returns slot 2 again
because Zeitschiebe was seeded to 1 and is still positive. -/
theorem c3_counterexample :
    (rrRun tSlot2 1 sZero 1).1 = 2 ∧
    (rrRun tSlot2 1 sZero 1).2.Zeitschiebe = 1 ∧
    (tSlot2 2).priority = 1 ∧
    (rrRun tSlot2 1 sZero 2).1 = 2 ∧
    (os_Scheduler_RoundRobin tSlot2 2
      { Zeitschiebe := 0, age := (rrRun tSlot2 1 sZero 1).2.age }).1 = 0 := by
  decide

/-- Claim C4, counterexample: slots 2 and 3 are READY with equal priority and
the age of slot 3 strictly exceeds the age of slot 2 (ages taken after the
re-seed of age[current]), so the claim requires slot 3 to be selected; the
code returns slot 0 because the stale slot-0 age entry 5 is the initial
comparison baseline and no READY slot beats it. -/
theorem c4_counterexample :
    (tC4 2).state = ProcessState.READY ∧ (tC4 3).state = ProcessState.READY ∧
    (tC4 2).priority = (tC4 3).priority ∧
    reseedAge tC4 1 ageC4 3 > reseedAge tC4 1 ageC4 2 ∧
    (os_Scheduler_InactiveAging tC4 1 { Zeitschiebe := 0, age := ageC4 }).1 ≠ 3 ∧
    (os_Scheduler_InactiveAging tC4 1 { Zeitschiebe := 0, age := ageC4 }).1 = 0 := by
  decide

/-- Claim C5, counterexample: t5a and t5b agree on every real slot and differ
only in the priority field of slot 0; slot 2 is READY and Zeitschiebe is 0,
yet the selection phase returns slot 2 for one table and slot 0 for the
other — the slot-0 record does influence the choice. -/
theorem c5_counterexample :
    (∀ i ∈ realSlots, t5a i = t5b i) ∧
    (t5a 0).state = (t5b 0).state ∧
    (t5a 2).state = ProcessState.READY ∧
    sZero.Zeitschiebe = 0 ∧
    (os_Scheduler_InactiveAging t5a 1 sZero).1 ≠ (os_Scheduler_InactiveAging t5b 1 sZero).1 := by
  decide

/-- Claim C6, counterexample: with slot 7 READY and current 6,
os_Scheduler_Even returns 7, which lies outside the claimed half-open
interval [0, N-1) = [0, 7). -/
theorem c6_counterexample :
    ¬ (os_Scheduler_Even tOnly7 6 ≤ MAX_NUMBER_OF_PROCESSES - 2) := by
  decide

/-- The beats relation is transitive. -/
theorem beats_trans (t : ProcessTable) (a : Nat → Nat) {i j k : Nat}
    (h1 : beats t a i j) (h2 : beats t a j k) : beats t a i k := by
  rcases h1 with h1 | ⟨e1, p1⟩ <;> rcases h2 with h2 | ⟨e2, p2⟩
  · left; omega
  · left; omega
  · left; omega
  · right; exact ⟨by omega, by omega⟩

/-- Two slots are beats-comparable or carry equal age and priority. -/
theorem beats_total (t : ProcessTable) (a : Nat → Nat) (i j : Nat) :
    beats t a i j ∨ beats t a j i ∨
      (a i = a j ∧ (t i).priority = (t j).priority) := by
  simp only [beats, gt_iff_lt]
  omega

/-- A READY slot that beats the running candidate replaces it. -/
theorem aiStep_update (t : ProcessTable) (a : Nat → Nat) (Max i : Nat)
    (hR : (t i).state = ProcessState.READY) (hb : beats t a i Max) :
    aiStep t a Max i = i := by
  unfold aiStep
  rcases hb with h | ⟨e, p⟩
  · rw [if_pos ⟨hR, h⟩]
  · by_cases h1 : aiCond1 t a Max i
    · rw [if_pos h1]
    · rw [if_neg h1, if_pos ⟨hR, e, p⟩]

/-- A slot that is not READY, or does not beat the candidate, leaves it. -/
theorem aiStep_keep (t : ProcessTable) (a : Nat → Nat) (Max i : Nat)
    (h : ¬ ((t i).state = ProcessState.READY ∧ beats t a i Max)) :
    aiStep t a Max i = Max := by
  unfold aiStep
  have h1 : ¬ aiCond1 t a Max i := fun hc => h ⟨hc.1, Or.inl hc.2⟩
  have h2 : ¬ aiCond2 t a Max i := fun hc => h ⟨hc.1, Or.inr ⟨hc.2.1, hc.2.2⟩⟩
  have h3 : ¬ aiCond3 t a Max i := fun hc => h2 ⟨hc.1, hc.2.1, hc.2.2.1⟩
  rw [if_neg h1, if_neg h2, if_neg h3]

/-- Invariant of the InactiveAging selection loop over a sorted list of slots
all larger than the running candidate: either no visited READY slot beats the
candidate and it survives, or the loop ends on the first READY slot that is
maximal in the order age descending, priority descending, index ascending. -/
theorem aiFold_spec (t : ProcessTable) (a : Nat → Nat) :
    ∀ (L : List Nat) (M : Nat), (∀ x ∈ L, M < x) → List.Sorted (· < ·) L →
      (List.foldl (aiStep t a) M L = M ∧
        ∀ j ∈ L, (t j).state = ProcessState.READY → ¬ beats t a j M)
      ∨ (∃ r, List.foldl (aiStep t a) M L = r ∧ r ∈ L ∧
          (t r).state = ProcessState.READY ∧ beats t a r M ∧
          ∀ j ∈ L, (t j).state = ProcessState.READY → j ≠ r →
            beats t a r j ∨
              (a r = a j ∧ (t r).priority = (t j).priority ∧ r < j)) := by
  intro L
  induction L with
  | nil => intro M _ _; left; exact ⟨rfl, by simp⟩
  | cons x L ih =>
    intro M hlt hsort
    rw [List.sorted_cons] at hsort
    obtain ⟨hx_lt, hsortL⟩ := hsort
    by_cases hupd : (t x).state = ProcessState.READY ∧ beats t a x M
    · have hstep : aiStep t a M x = x := aiStep_update t a M x hupd.1 hupd.2
      rw [List.foldl_cons, hstep]
      rcases ih x hx_lt hsortL with ⟨hfold, hnone⟩ | ⟨r, hfold, hrL, hrR, hrb, hall⟩
      · right
        refine ⟨x, hfold, by simp, hupd.1, hupd.2, ?_⟩
        intro j hj hjR hjx
        rcases List.mem_cons.mp hj with rfl | hjL
        · exact absurd rfl hjx
        · rcases beats_total t a x j with hb | hb | ⟨e1, e2⟩
          · exact Or.inl hb
          · exact absurd hb (hnone j hjL hjR)
          · exact Or.inr ⟨e1, e2, hx_lt j hjL⟩
      · right
        have hxr : x ≠ r := fun h => by
          have := hx_lt r hrL; omega
        refine ⟨r, hfold, by simp [hrL], hrR, beats_trans t a hrb hupd.2, ?_⟩
        intro j hj hjR hjr
        rcases List.mem_cons.mp hj with rfl | hjL
        · exact Or.inl hrb
        · exact hall j hjL hjR hjr
    · have hstep : aiStep t a M x = M := aiStep_keep t a M x hupd
      rw [List.foldl_cons, hstep]
      have hltL : ∀ y ∈ L, M < y := fun y hy => hlt y (by simp [hy])
      rcases ih M hltL hsortL with ⟨hfold, hnone⟩ | ⟨r, hfold, hrL, hrR, hrb, hall⟩
      · left
        refine ⟨hfold, ?_⟩
        intro j hj hjR hb
        rcases List.mem_cons.mp hj with rfl | hjL
        · exact hupd ⟨hjR, hb⟩
        · exact hnone j hjL hjR hb
      · right
        refine ⟨r, hfold, by simp [hrL], hrR, hrb, ?_⟩
        intro j hj hjR hjr
        rcases List.mem_cons.mp hj with rfl | hjL
        · rcases beats_total t a r j with hb | hb | ⟨e1, e2⟩
          · exact Or.inl hb
          · exact absurd (beats_trans t a hb hrb) (fun hc => hupd ⟨hjR, hc⟩)
          · exfalso
            apply hupd
            refine ⟨hjR, ?_⟩
            rcases hrb with h | ⟨e3, p3⟩
            · left; omega
            · right; exact ⟨by omega, by omega⟩
        · exact hall j hjL hjR hjr

/-- Claim C4, amended: provided some READY real slot strictly improves on the
slot-0 baseline (greater age, or equal age and greater priority, the ages
taken after age[current] is re-seeded to the priority of current), the
selection phase of os_Scheduler_InactiveAging returns a READY real slot that
is maximal in the order age descending, priority descending, slot index
ascending among the READY real slots; the counterexample shows the baseline
proviso is needed. -/
theorem c4_amended (t : ProcessTable) (info : SchedulingInformation) (current : Nat)
    (hz : info.Zeitschiebe = 0)
    (hex : ∃ i ∈ realSlots, (t i).state = ProcessState.READY ∧
      beats t (reseedAge t current info.age) i 0) :
    (os_Scheduler_InactiveAging t current info).1 ∈ realSlots ∧
    (t (os_Scheduler_InactiveAging t current info).1).state = ProcessState.READY ∧
    ∀ j ∈ realSlots, (t j).state = ProcessState.READY →
      j ≠ (os_Scheduler_InactiveAging t current info).1 →
      beats t (reseedAge t current info.age)
        (os_Scheduler_InactiveAging t current info).1 j ∨
      (reseedAge t current info.age (os_Scheduler_InactiveAging t current info).1 =
          reseedAge t current info.age j ∧
        (t (os_Scheduler_InactiveAging t current info).1).priority = (t j).priority ∧
        (os_Scheduler_InactiveAging t current info).1 < j) := by
  have hr : (os_Scheduler_InactiveAging t current info).1 =
      aiSelect t (reseedAge t current info.age) := by
    unfold os_Scheduler_InactiveAging
    rw [hz]
    simp
  rcases aiFold_spec t (reseedAge t current info.age) realSlots 0
      (by decide) (by decide) with ⟨_, hnone⟩ | ⟨r, hfold, hrL, hrR, _, hall⟩
  · obtain ⟨i, hiL, hiR, hib⟩ := hex
    exact absurd hib (hnone i hiL hiR)
  · have hsel : aiSelect t (reseedAge t current info.age) = r := hfold
    rw [hr, hsel]
    exact ⟨hrL, hrR, hall⟩

theorem c4_witness :
    sZero.Zeitschiebe = 0 ∧
    (∃ i ∈ realSlots, (t5a i).state = ProcessState.READY ∧
      beats t5a (reseedAge t5a 1 sZero.age) i 0) ∧
    ((os_Scheduler_InactiveAging t5a 1 sZero).1 ∈ realSlots ∧
      (t5a (os_Scheduler_InactiveAging t5a 1 sZero).1).state = ProcessState.READY ∧
      ∀ j ∈ realSlots, (t5a j).state = ProcessState.READY →
        j ≠ (os_Scheduler_InactiveAging t5a 1 sZero).1 →
        beats t5a (reseedAge t5a 1 sZero.age)
          (os_Scheduler_InactiveAging t5a 1 sZero).1 j ∨
        (reseedAge t5a 1 sZero.age (os_Scheduler_InactiveAging t5a 1 sZero).1 =
            reseedAge t5a 1 sZero.age j ∧
          (t5a (os_Scheduler_InactiveAging t5a 1 sZero).1).priority = (t5a j).priority ∧
          (os_Scheduler_InactiveAging t5a 1 sZero).1 < j)) :=
  ⟨by decide, by decide, c4_amended t5a sZero 1 (by decide) (by decide)⟩

/-- The selection step reads the table only at the probed slot and at the
priority of the running candidate. -/
theorem aiStep_congr (t1 t2 : ProcessTable) (a : Nat → Nat) (M i : Nat)
    (hi : t1 i = t2 i) (hM : (t1 M).priority = (t2 M).priority) :
    aiStep t1 a M i = aiStep t2 a M i := by
  unfold aiStep
  have hs : (t1 i).state = (t2 i).state := by rw [hi]
  have hp : (t1 i).priority = (t2 i).priority := by rw [hi]
  simp only [aiCond1, aiCond2, aiCond3, hs, hp, hM]

/-- The selection step keeps the candidate inside the visited set. -/
theorem aiStep_cases (t : ProcessTable) (a : Nat → Nat) (M i : Nat) :
    aiStep t a M i = i ∨ aiStep t a M i = M := by
  unfold aiStep
  split
  · exact Or.inl rfl
  · split
    · exact Or.inl rfl
    · split
      · exact Or.inl rfl
      · exact Or.inr rfl

/-- The whole selection loop is insensitive to table entries it never
reads. -/
theorem aiFold_congr (t1 t2 : ProcessTable) (a : Nat → Nat) :
    ∀ (L : List Nat) (M : Nat), (∀ i ∈ L, t1 i = t2 i) →
      (t1 M).priority = (t2 M).priority →
      List.foldl (aiStep t1 a) M L = List.foldl (aiStep t2 a) M L := by
  intro L
  induction L with
  | nil => intro M _ _; rfl
  | cons x L ih =>
    intro M hL hM
    have hx : t1 x = t2 x := hL x (by simp)
    simp only [List.foldl_cons]
    rw [aiStep_congr t1 t2 a M x hx hM]
    apply ih _ (fun i hi => hL i (by simp [hi]))
    rcases aiStep_cases t2 a M x with h | h <;> rw [h]
    · rw [hx]
    · exact hM

/-- The waiting-loop step reads the table only at the probed slot. -/
theorem agingStep_congr (t1 t2 : ProcessTable) (current : Nat) (a : Nat → Nat)
    (i : Nat) (h : t1 i = t2 i) :
    agingStep t1 current a i = agingStep t2 current a i := by
  unfold agingStep
  rw [h]

/-- The whole waiting loop is insensitive to table entries it never reads. -/
theorem agingFold_congr (t1 t2 : ProcessTable) (current : Nat) :
    ∀ (L : List Nat) (a : Nat → Nat), (∀ i ∈ L, t1 i = t2 i) →
      List.foldl (agingStep t1 current) a L = List.foldl (agingStep t2 current) a L := by
  intro L
  induction L with
  | nil => intro a _; rfl
  | cons x L ih =>
    intro a hL
    simp only [List.foldl_cons]
    rw [agingStep_congr t1 t2 current a x (hL x (by simp))]
    exact ih _ (fun i hi => hL i (by simp [hi]))

/-- Claim C5, amended: the slot-0 state field never influences
os_Scheduler_InactiveAging: two tables that agree on every real slot and on
the priority of slot 0 (the slot-0 state may differ arbitrarily) give the
identical returned slot and identical resulting scheduling information, for
every in-range current slot and every scheduling state. The slot-0 priority,
by contrast, can influence the selection, as the counterexample shows: it
takes part in the comparisons as the priority of the initial candidate. -/
theorem c5_amended (t1 t2 : ProcessTable) (current : Nat) (info : SchedulingInformation)
    (hreal : ∀ i ∈ realSlots, t1 i = t2 i)
    (hprio0 : (t1 0).priority = (t2 0).priority)
    (hcur : current < 8) :
    os_Scheduler_InactiveAging t1 current info = os_Scheduler_InactiveAging t2 current info := by
  have hpcur : (t1 current).priority = (t2 current).priority := by
    by_cases h0 : current = 0
    · rw [h0]; exact hprio0
    · have := hreal current (by rw [mem_realSlots]; omega)
      rw [this]
  have hres : reseedAge t1 current info.age = reseedAge t2 current info.age := by
    funext j
    unfold reseedAge
    by_cases hj : j = current <;> simp [hj, hpcur]
  unfold os_Scheduler_InactiveAging
  by_cases hZ : 0 < info.Zeitschiebe
  · simp only [hZ, if_true]
    have : agingUpdate t1 current info.age = agingUpdate t2 current info.age :=
      agingFold_congr t1 t2 current realSlots info.age hreal
    rw [this]
  · simp only [hZ, if_false]
    have hsel : aiSelect t1 (reseedAge t1 current info.age) =
        aiSelect t2 (reseedAge t2 current info.age) := by
      rw [hres]
      exact aiFold_congr t1 t2 (reseedAge t2 current info.age) realSlots 0 hreal hprio0
    rw [hsel, hres]

theorem c5_witness :
    (∀ i ∈ realSlots, t5b i = t5c i) ∧
    (t5b 0).priority = (t5c 0).priority ∧
    (t5b 0).state ≠ (t5c 0).state ∧
    os_Scheduler_InactiveAging t5b 1 sZero = os_Scheduler_InactiveAging t5c 1 sZero :=
  ⟨by decide, by decide, by decide,
    c5_amended t5b t5c 1 sZero (by decide) (by decide) (by decide)⟩

/-- While Zeitschiebe covers the remaining calls, every RoundRobin call
returns current and only decrements Zeitschiebe. -/
theorem rrRun_hold (t : ProcessTable) :
    ∀ (k c : Nat) (s : SchedulingInformation), k ≤ s.Zeitschiebe →
      rrRun t c s k = (c, { Zeitschiebe := s.Zeitschiebe - k, age := s.age }) := by
  intro k
  induction k with
  | zero =>
    intro c s _
    show (c, s) = (c, { Zeitschiebe := s.Zeitschiebe - 0, age := s.age })
    rw [Nat.sub_zero]
  | succ k ih =>
    intro c s hk
    have hz : 0 < s.Zeitschiebe := by omega
    have hRR : os_Scheduler_RoundRobin t c s =
        (c, { s with Zeitschiebe := s.Zeitschiebe - 1 }) := by
      unfold os_Scheduler_RoundRobin
      rw [if_pos hz]
    show rrRun t (os_Scheduler_RoundRobin t c s).1 (os_Scheduler_RoundRobin t c s).2 k =
      (c, { Zeitschiebe := s.Zeitschiebe - (k + 1), age := s.age })
    rw [hRR]
    rw [ih c { s with Zeitschiebe := s.Zeitschiebe - 1 } (by simp; omega)]
    have : s.Zeitschiebe - 1 - k = s.Zeitschiebe - (k + 1) := by omega
    simp only [this]

/-- Claim C3, amended: when the scan selects a READY slot i of priority p at
tick T (seeding Zeitschiebe with p), the p calls at ticks T+1 .. T+p also
return that same slot, so the slot is returned p+1 times in total, and only
the call at tick T+p+1 performs a new scan: after the call at tick T+p the
Zeitschiebe is back to zero. Call number j below counts from the selecting
call itself, which is call 1. -/
theorem c3_amended (t : ProcessTable) (c : Nat) (info : SchedulingInformation)
    (i : Nat) (s1 : SchedulingInformation)
    (hz : info.Zeitschiebe = 0)
    (hcall : os_Scheduler_RoundRobin t c info = (i, s1))
    (hi : i ≠ 0) :
    (∀ j, 1 ≤ j → j ≤ (t i).priority + 1 → (rrRun t c info j).1 = i) ∧
    (rrRun t c info ((t i).priority + 1)).2.Zeitschiebe = 0 := by
  have hs1 : s1.Zeitschiebe = (t i).priority := by
    unfold os_Scheduler_RoundRobin at hcall
    rw [if_neg (by omega : ¬ 0 < info.Zeitschiebe)] at hcall
    cases hscan : scanFrom t 8 (nextIdx c) 0 with
    | none =>
      rw [hscan] at hcall
      have : (0 : Nat) = i := congrArg Prod.fst hcall
      exact absurd this.symm hi
    | some v =>
      rw [hscan] at hcall
      have hcall2 : (if v = 0 then ((0 : Nat), info)
          else (v, { info with Zeitschiebe := (t v).priority })) = (i, s1) := hcall
      by_cases hv : v = 0
      · rw [if_pos hv] at hcall2
        have : (0 : Nat) = i := congrArg Prod.fst hcall2
        exact absurd this.symm hi
      · rw [if_neg hv] at hcall2
        have hvi : v = i := congrArg Prod.fst hcall2
        have hsnd : ({ info with Zeitschiebe := (t v).priority } : SchedulingInformation) = s1 :=
          congrArg Prod.snd hcall2
        rw [← hsnd, hvi]
  have hstep : ∀ k, rrRun t c info (k + 1) = rrRun t i s1 k := by
    intro k
    show rrRun t (os_Scheduler_RoundRobin t c info).1 (os_Scheduler_RoundRobin t c info).2 k =
      rrRun t i s1 k
    rw [hcall]
  constructor
  · intro j hj1 hjp
    obtain ⟨k, rfl⟩ : ∃ k, j = k + 1 := ⟨j - 1, by omega⟩
    rw [hstep k, rrRun_hold t k i s1 (by rw [hs1]; omega)]
  · rw [show (t i).priority + 1 = (t i).priority + 1 from rfl,
      hstep ((t i).priority), rrRun_hold t ((t i).priority) i s1 (by rw [hs1])]
    simp [hs1]

theorem c3_witness :
    sZero.Zeitschiebe = 0 ∧
    (os_Scheduler_RoundRobin tSlot2 1 sZero).1 = 2 ∧
    (tSlot2 2).priority = 1 ∧
    ((∀ j, 1 ≤ j → j ≤ (tSlot2 2).priority + 1 → (rrRun tSlot2 1 sZero j).1 = 2) ∧
      (rrRun tSlot2 1 sZero ((tSlot2 2).priority + 1)).2.Zeitschiebe = 0) := by
  refine ⟨rfl, by decide, by decide, ?_⟩
  have h1 : (os_Scheduler_RoundRobin tSlot2 1 sZero).1 = 2 := by decide
  exact c3_amended tSlot2 1 sZero 2 (os_Scheduler_RoundRobin tSlot2 1 sZero).2 rfl
    (by rw [← h1]) (by decide)

/-- If some slot the six-probe scan visits is READY, Even does not fall back
to slot 0. -/
theorem even_nonzero (t : ProcessTable) (current : Nat) (hcur : current < 8)
    (hex : ∃ i ∈ realSlots, i ≠ missedSlot current ∧ (t i).state = ProcessState.READY) :
    os_Scheduler_Even t current ≠ 0 := by
  rw [even_eq_find]
  obtain ⟨i, hiL, him, hiR⟩ := hex
  have hiP : i ∈ probeList (nextIdx current) 6 :=
    (probeList_even_mem current hcur i).mpr ⟨hiL, him⟩
  cases hfind : (probeList (nextIdx current) 6).find?
      (fun k => decide ((t k).state = ProcessState.READY)) with
  | none =>
    have := List.find?_eq_none.mp hfind i hiP
    simp at this
    exact absurd hiR this
  | some y =>
    have hyM : y ∈ probeList (nextIdx current) 6 := List.mem_of_find?_eq_some hfind
    have hy : y ∈ realSlots ∧ y ≠ missedSlot current :=
      (probeList_even_mem current hcur y).mp hyM
    have hy1 : 1 ≤ y := ((mem_realSlots y).mp hy.1).1
    simp only [Option.getD_some]
    show y ≠ 0
    omega

/-- Claim C1, amended: each scheduler returns a nonzero slot id under the
weakest table conditions its scan actually guarantees: Even needs a READY
real slot other than the one probe the scan skips (current itself, or slot 7
when current is 0); RoundRobin inherits that condition when Zeitschiebe is 0
and otherwise needs current nonzero; RunToCompletion returns a RUNNING
nonzero current, or, whatever the garbage initial counter, finds slot 1 when
it is READY; InactiveAging needs current nonzero while Zeitschiebe is
positive and otherwise a READY real slot that beats the slot-0 baseline. -/
theorem c1_amended (t : ProcessTable) (current : Nat) (info : SchedulingInformation)
    (g : Nat) (hcur : current < 8) :
    ((∃ i ∈ realSlots, i ≠ missedSlot current ∧ (t i).state = ProcessState.READY) →
      os_Scheduler_Even t current ≠ 0) ∧
    (0 < info.Zeitschiebe → current ≠ 0 →
      (os_Scheduler_RoundRobin t current info).1 ≠ 0) ∧
    (info.Zeitschiebe = 0 →
      (∃ i ∈ realSlots, i ≠ missedSlot current ∧ (t i).state = ProcessState.READY) →
      (os_Scheduler_RoundRobin t current info).1 ≠ 0) ∧
    ((t current).state = ProcessState.RUNNING → current ≠ 0 →
      os_Scheduler_RunToCompletion t current g ≠ 0) ∧
    ((t current).state ≠ ProcessState.RUNNING → (t 1).state = ProcessState.READY →
      os_Scheduler_RunToCompletion t current g ≠ 0) ∧
    (0 < info.Zeitschiebe → current ≠ 0 →
      (os_Scheduler_InactiveAging t current info).1 ≠ 0) ∧
    (info.Zeitschiebe = 0 →
      (∃ i ∈ realSlots, (t i).state = ProcessState.READY ∧
        beats t (reseedAge t current info.age) i 0) →
      (os_Scheduler_InactiveAging t current info).1 ≠ 0) := by
  refine ⟨even_nonzero t current hcur, ?_, ?_, ?_, ?_, ?_, ?_⟩
  · intro hz hc
    unfold os_Scheduler_RoundRobin
    rw [if_pos hz]
    exact hc
  · intro hz hex
    rw [rr_zero_fst t current info hz]
    exact even_nonzero t current hcur hex
  · intro hR hc
    unfold os_Scheduler_RunToCompletion
    rw [if_pos hR]
    exact hc
  · intro hR hr1
    unfold os_Scheduler_RunToCompletion
    rw [if_neg hR]
    have : scanFrom t 8 1 g = some 1 := by
      rw [show (8 : Nat) = 7 + 1 from rfl, scanFrom, if_pos hr1]
    rw [this]
    simp
  · intro hz hc
    unfold os_Scheduler_InactiveAging
    rw [if_pos hz]
    exact hc
  · intro hz hex
    have hr : (os_Scheduler_InactiveAging t current info).1 =
        aiSelect t (reseedAge t current info.age) := by
      unfold os_Scheduler_InactiveAging
      rw [if_neg (by omega : ¬ 0 < info.Zeitschiebe)]
    rw [hr]
    rcases aiFold_spec t (reseedAge t current info.age) realSlots 0
        (by decide) (by decide) with ⟨_, hnone⟩ | ⟨r, hfold, hrL, _, _, _⟩
    · obtain ⟨i, hiL, hiR, hib⟩ := hex
      exact absurd hib (hnone i hiL hiR)
    · have hsel : aiSelect t (reseedAge t current info.age) = r := hfold
      rw [hsel]
      have := (mem_realSlots r).mp hrL
      show r ≠ 0
      omega

theorem c1_witness :
    (0 : Nat) < 8 ∧
    (∃ i ∈ realSlots, i ≠ missedSlot 0 ∧ (tSlot2 i).state = ProcessState.READY) ∧
    os_Scheduler_Even tSlot2 0 ≠ 0 :=
  ⟨by decide, by decide, (c1_amended tSlot2 0 sZero 0 (by decide)).1 (by decide)⟩

/-- Even stays within slots 0..7 for an in-range current. -/
theorem even_le7 (t : ProcessTable) (current : Nat) (hcur : current < 8) :
    os_Scheduler_Even t current ≤ 7 := by
  unfold os_Scheduler_Even
  cases hscan : scanFrom t 8 (nextIdx current) 0 with
  | none => simp
  | some r =>
    have := scanFrom_le7 t 8 (nextIdx current) 0 r
      (by unfold nextIdx MAX_NUMBER_OF_PROCESSES; split <;> omega)
      (by unfold nextIdx MAX_NUMBER_OF_PROCESSES; split <;> omega) hscan
    simpa using this

/-- Claim C6, amended: every strategy selector returns an index in the closed
interval [0, N-1], N = MAX_NUMBER_OF_PROCESSES, for every table, in-range
current slot, scheduling state, garbage counter and random draw; the
counterexample shows the claimed exclusive bound N-2 is one too small, since
slot N-1 = 7 is returnable. -/
theorem c6_amended (t : ProcessTable) (current : Nat) (info : SchedulingInformation)
    (g r : Nat) (hcur : current < 8) (hg : g < 256) :
    os_Scheduler_Even t current ≤ MAX_NUMBER_OF_PROCESSES - 1 ∧
    os_Scheduler_Random t current r ≤ MAX_NUMBER_OF_PROCESSES - 1 ∧
    (os_Scheduler_RoundRobin t current info).1 ≤ MAX_NUMBER_OF_PROCESSES - 1 ∧
    (os_Scheduler_InactiveAging t current info).1 ≤ MAX_NUMBER_OF_PROCESSES - 1 ∧
    os_Scheduler_RunToCompletion t current g ≤ MAX_NUMBER_OF_PROCESSES - 1 := by
  refine ⟨even_le7 t current hcur, ?_, ?_, ?_, ?_⟩
  · show os_Scheduler_Random t current r ≤ 7
    unfold os_Scheduler_Random
    split
    · decide
    · exact getD_le7 (readyProcs t) _ 0 (readyProcs_le7 t) (by omega)
  · show (os_Scheduler_RoundRobin t current info).1 ≤ 7
    by_cases hz : 0 < info.Zeitschiebe
    · unfold os_Scheduler_RoundRobin
      rw [if_pos hz]
      show current ≤ 7
      omega
    · rw [rr_zero_fst t current info (by omega)]
      exact even_le7 t current hcur
  · show (os_Scheduler_InactiveAging t current info).1 ≤ 7
    unfold os_Scheduler_InactiveAging
    by_cases hz : 0 < info.Zeitschiebe
    · rw [if_pos hz]
      show current ≤ 7
      omega
    · rw [if_neg hz]
      show aiSelect t (reseedAge t current info.age) ≤ 7
      exact aiFold_le7 t _ realSlots 0 (by omega) (by decide)
  · show os_Scheduler_RunToCompletion t current g ≤ 7
    unfold os_Scheduler_RunToCompletion
    split
    · show current ≤ 7
      omega
    · cases hscan : scanFrom t 8 1 g with
      | none => simp
      | some v =>
        have := scanFrom_le7 t 8 1 g v (by omega) (by omega) hscan
        simpa using this

theorem c6_witness :
    (6 : Nat) < 8 ∧ (0 : Nat) < 256 ∧
    (os_Scheduler_Even tOnly7 6 ≤ MAX_NUMBER_OF_PROCESSES - 1 ∧
      os_Scheduler_Random tOnly7 6 0 ≤ MAX_NUMBER_OF_PROCESSES - 1 ∧
      (os_Scheduler_RoundRobin tOnly7 6 sZero).1 ≤ MAX_NUMBER_OF_PROCESSES - 1 ∧
      (os_Scheduler_InactiveAging tOnly7 6 sZero).1 ≤ MAX_NUMBER_OF_PROCESSES - 1 ∧
      os_Scheduler_RunToCompletion tOnly7 6 0 ≤ MAX_NUMBER_OF_PROCESSES - 1) :=
  ⟨by decide, by decide, c6_amended tOnly7 6 sZero 0 0 (by decide) (by decide)⟩

/-- The do-while scan exits through its own counter bound: for every counter
below 256 the result with any fuel of at least 7 equals the result with fuel
8, and is never the fuel-exhaustion value none. -/
theorem scanFrom_total (t : ProcessTable) (s g fuel : Nat) (hg : g < 256)
    (hfuel : 7 ≤ fuel) :
    scanFrom t fuel s g = scanFrom t 8 s g ∧ (scanFrom t fuel s g).isSome = true := by
  by_cases hg6 : g < 6
  · have h8 := scanFrom_eq_find t (6 - g) s g 8 hg6 (by omega) (by omega)
    have hf := scanFrom_eq_find t (6 - g) s g fuel hg6 (by omega) (by omega)
    rw [h8, hf]
    exact ⟨rfl, rfl⟩
  · by_cases hg255 : g = 255
    · subst hg255
      obtain ⟨f, rfl⟩ : ∃ f, fuel = f + 1 := ⟨fuel - 1, by omega⟩
      have hstep : ∀ f2, 6 ≤ f2 → scanFrom t (f2 + 1) s 255 =
          (if (t s).state = ProcessState.READY then some s
           else some (((probeList (nextIdx s) 6).find?
             (fun i => decide ((t i).state = ProcessState.READY))).getD 0)) := by
        intro f2 hf2
        rw [scanFrom]
        have h0 : (255 + 1) % 256 = 0 := by norm_num
        by_cases hR : (t s).state = ProcessState.READY
        · rw [if_pos hR, if_pos hR]
        · rw [if_neg hR, if_neg hR, h0, if_pos (by omega : (0 : Nat) < 6),
            scanFrom_eq_find t 6 (nextIdx s) 0 f2 (by omega) (by omega) (by omega)]
      rw [hstep f (by omega), hstep 7 (by omega)]
      refine ⟨rfl, ?_⟩
      by_cases hR : (t s).state = ProcessState.READY <;> simp [hR]
    · obtain ⟨f, rfl⟩ : ∃ f, fuel = f + 1 := ⟨fuel - 1, by omega⟩
      have hmod : (g + 1) % 256 = g + 1 := Nat.mod_eq_of_lt (by omega)
      have hstep : ∀ f2 : Nat, scanFrom t (f2 + 1) s g =
          (if (t s).state = ProcessState.READY then some s else some 0) := by
        intro f2
        rw [scanFrom, hmod, if_neg (by omega : ¬ g + 1 < 6)]
      rw [hstep f, hstep 7]
      refine ⟨rfl, ?_⟩
      by_cases hR : (t s).state = ProcessState.READY <;> simp [hR]

/-- Claim C8: every selector call completes with a slot id. The scan loops of
Even, RoundRobin and RunToCompletion exit through their own counter
conditions for every table, every in-range current slot and every initial
counter value of the uint8 counter, independently of the recursion fuel: the
fuel backstop is never the reason a scan ends. Consequently Even and
RunToCompletion compute their results from those always-defined scans; the
remaining selectors recurse only over the fixed slot lists. -/
theorem c8_selectors_total (t : ProcessTable) (current g fuel : Nat)
    (hcur : current < 8) (hg : g < 256) (hfuel : 7 ≤ fuel) :
    (scanFrom t fuel (nextIdx current) 0).isSome = true ∧
    scanFrom t fuel (nextIdx current) 0 = scanFrom t 8 (nextIdx current) 0 ∧
    (scanFrom t fuel 1 g).isSome = true ∧
    scanFrom t fuel 1 g = scanFrom t 8 1 g ∧
    os_Scheduler_Even t current = (scanFrom t fuel (nextIdx current) 0).getD 0 ∧
    os_Scheduler_RunToCompletion t current g =
      (if (t current).state = ProcessState.RUNNING then current
       else (scanFrom t fuel 1 g).getD 0) := by
  obtain ⟨he_eq, he_some⟩ := scanFrom_total t (nextIdx current) 0 fuel (by omega) hfuel
  obtain ⟨hr_eq, hr_some⟩ := scanFrom_total t 1 g fuel hg hfuel
  refine ⟨he_some, he_eq, hr_some, hr_eq, ?_, ?_⟩
  · unfold os_Scheduler_Even
    rw [he_eq]
  · unfold os_Scheduler_RunToCompletion
    rw [hr_eq]

theorem c8_witness :
    (0 : Nat) < 8 ∧ (255 : Nat) < 256 ∧ (7 : Nat) ≤ 7 ∧
    ((scanFrom tOnly7 7 (nextIdx 0) 0).isSome = true ∧
      scanFrom tOnly7 7 (nextIdx 0) 0 = scanFrom tOnly7 8 (nextIdx 0) 0 ∧
      (scanFrom tOnly7 7 1 255).isSome = true ∧
      scanFrom tOnly7 7 1 255 = scanFrom tOnly7 8 1 255 ∧
      os_Scheduler_Even tOnly7 0 = (scanFrom tOnly7 7 (nextIdx 0) 0).getD 0 ∧
      os_Scheduler_RunToCompletion tOnly7 0 255 =
        (if (tOnly7 0).state = ProcessState.RUNNING then 0
         else (scanFrom tOnly7 7 1 255).getD 0)) :=
  ⟨by decide, by decide, by decide,
    c8_selectors_total tOnly7 0 255 7 (by decide) (by decide) (by decide)⟩
